import Mathlib

/-!
# Verification of the ATM ledger (`app/services/account_service.py`)

Shallow embedding of the in-memory account ledger of the repository
`dv-atm-system`.  The Python `AccountService` keeps

* `accounts   : Dict[str, Account]`        — modelled as an association list,
* `account_locks : defaultdict(RLock)`     — only the *key set* matters for the
  functional claims, modelled as a `List ℕ` of keys; crucially, a Python
  `defaultdict` inserts a fresh entry whenever a missing key is accessed,
  which `get_balance` / `_atomic_transaction` do via `with self.account_locks[x]`,
* UUID generation                          — modelled by a fresh-counter `next_id`,
* `datetime.now()`                         — modelled by a strictly increasing
  counter `time`, bumped at every point the Python code reads the clock.

Balances and amounts are Python floats in the source; following §9 of the
design spec ("the original behavior's exact rounding is not load-bearing"),
they are modelled as exact rationals `ℚ`.

Pydantic validation: the `Account` model declares `balance: float = Field(ge=0)`,
so constructing an `Account` with a negative balance raises a `ValidationError`
(modelled as the `validationError` outcome); attribute assignment
(`account.balance = new_balance`) is *not* re-validated (pydantic default
`validate_assignment = False`), so balance updates are plain field updates.
The request schemas `TransactionRequest` (`gt=0`, `le=MAX_TRANSACTION_AMOUNT`)
and `AccountCreate` (`ge=0`, `le=MAX_TRANSACTION_AMOUNT`) are modelled as the
boolean validators below; their rejection is the typed `invalidAmount` outcome
of the spec's error taxonomy — the service itself never produces it.
-/

/-- Settings, from `app/config/settings.py` (the two fields the ledger uses). -/
structure Settings where
  MAX_ACCOUNTS : ℕ
  MAX_TRANSACTION_AMOUNT : ℚ
deriving Repr, DecidableEq

/-- Default settings values (`MAX_ACCOUNTS=1000`, `MAX_TRANSACTION_AMOUNT=10000.0`). -/
def defaultSettings : Settings := ⟨1000, 10000⟩

/-- The pydantic `Account` model (`app/schemas/account.py`): identifier,
balance, and the two timestamps. -/
structure Account where
  account_number : ℕ
  balance : ℚ
  created_at : ℕ
  last_updated : ℕ
deriving Repr, DecidableEq

/-- Typed outcomes of the error taxonomy (spec §7).  The service raises
`notFound` (HTTP 404), `capacityExceeded` (HTTP 507) and `insufficientFunds`
(HTTP 400); `validationError` is a pydantic `ValidationError` escaping the
service (mapped to HTTP 500 by the router); `invalidAmount` is the schema
layer's typed rejection of a bad amount (HTTP 422) and is never produced by
the service itself. -/
inductive LedgerError where
  | notFound
  | capacityExceeded
  | insufficientFunds
  | validationError
  | invalidAmount
deriving Repr, DecidableEq

/-- Response model `AccountCreateResponse` (`app/schemas/account.py`). -/
structure AccountCreateResponse where
  account_number : ℕ
  balance : ℚ
deriving Repr, DecidableEq

/-- Response model `BalanceResponse` (`app/schemas/account.py`). -/
structure BalanceResponse where
  account_number : ℕ
  balance : ℚ
deriving Repr, DecidableEq

/-- Response model `TransactionResponse` (`app/schemas/transaction.py`). -/
structure TransactionResponse where
  account_number : ℕ
  new_balance : ℚ
  transaction_amount : ℚ
  transaction_type : String
  timestamp : ℕ
deriving Repr, DecidableEq

/-- State of an `AccountService` instance: the account table, the key set of
the per-account lock table, the UUID fresh counter and the clock. -/
structure LedgerState where
  accounts : List (ℕ × Account)
  account_locks : List ℕ
  next_id : ℕ
  time : ℕ
deriving Repr, DecidableEq

/-- The state `AccountService.__init__` produces: both tables empty. -/
def initialState : LedgerState := ⟨[], [], 0, 0⟩

/-- Dictionary lookup `self.accounts[k]` / `k in self.accounts`. -/
def lookupA (k : ℕ) : List (ℕ × Account) → Option Account
  | [] => none
  | (k', v) :: rest => if k' = k then some v else lookupA k rest

/-- Dictionary store `self.accounts[k] = v`: replace in place if present,
append otherwise (Python dicts preserve insertion order). -/
def updateAssoc (k : ℕ) (v : Account) : List (ℕ × Account) → List (ℕ × Account)
  | [] => [(k, v)]
  | (k', v') :: rest =>
      if k' = k then (k, v) :: rest else (k', v') :: updateAssoc k v rest

/-- Dictionary delete `del self.accounts[k]`. -/
def eraseAssoc (k : ℕ) : List (ℕ × Account) → List (ℕ × Account)
  | [] => []
  | (k', v) :: rest => if k' = k then rest else (k', v) :: eraseAssoc k rest

/-- Python `defaultdict` key access `self.account_locks[k]`: inserts the key when
missing.  Only the key set of the lock table is modelled. -/
def ensureLock (k : ℕ) (locks : List ℕ) : List ℕ :=
  if k ∈ locks then locks else locks ++ [k]

/-- Service method `AccountService.create_account`: capacity check under the global lock,
fresh UUID, clock read, pydantic `Account` construction (which rejects a
negative balance), then insertion into both tables. -/
def create_account (st : Settings) (s : LedgerState) (initial_balance : ℚ) :
    Except LedgerError AccountCreateResponse × LedgerState :=
  if st.MAX_ACCOUNTS ≤ s.accounts.length then
    (.error .capacityExceeded, s)
  else
    -- account_number = str(uuid.uuid4()); now = datetime.now()
    let account_number := s.next_id
    let now := s.time
    if initial_balance < 0 then
      -- Account(balance=initial_balance, ...) raises pydantic ValidationError
      (.error .validationError, { s with next_id := s.next_id + 1, time := s.time + 1 })
    else
      let account : Account :=
        { account_number := account_number, balance := initial_balance
          created_at := now, last_updated := now }
      (.ok { account_number := account_number, balance := initial_balance },
        { s with
          accounts := updateAssoc account_number account s.accounts
          account_locks := ensureLock account_number s.account_locks
          next_id := s.next_id + 1
          time := s.time + 1 })

/-- Service method `AccountService.get_balance`: `with self.account_locks[account_number]`
(a `defaultdict` access that inserts a lock entry even for an unknown id),
then `_get_account_unsafe` which raises 404 when absent. -/
def get_balance (s : LedgerState) (account_number : ℕ) :
    Except LedgerError BalanceResponse × LedgerState :=
  let s' : LedgerState := { s with account_locks := ensureLock account_number s.account_locks }
  match lookupA account_number s'.accounts with
  | none => (.error .notFound, s')
  | some account =>
      (.ok { account_number := account.account_number, balance := account.balance }, s')

/-- Service method `AccountService.delete_account`: membership check under the global lock
(404 without touching the lock table when absent), then acquisition of the
per-account lock (a `defaultdict` access), removal of the account and of its
lock entry. -/
def delete_account (s : LedgerState) (account_number : ℕ) :
    Except LedgerError Unit × LedgerState :=
  if (lookupA account_number s.accounts).isSome then
    let locks := ensureLock account_number s.account_locks
    (.ok (),
      { s with
        accounts := eraseAssoc account_number s.accounts
        account_locks := locks.erase account_number })
  else
    (.error .notFound, s)

/-- Service method `AccountService._atomic_transaction`: per-account lock acquisition
(`defaultdict` access), 404 check, insufficient-funds check
(`amount_change < 0 and new_balance < 0`), then the unvalidated field updates
`account.balance = new_balance; account.last_updated = datetime.now()` and the
`TransactionResponse`. -/
def atomic_transaction (s : LedgerState) (account_number : ℕ) (amount_change : ℚ)
    (transaction_type : String) :
    Except LedgerError TransactionResponse × LedgerState :=
  let s' : LedgerState := { s with account_locks := ensureLock account_number s.account_locks }
  match lookupA account_number s'.accounts with
  | none => (.error .notFound, s')
  | some account =>
      let old_balance := account.balance
      let new_balance := old_balance + amount_change
      if amount_change < 0 ∧ new_balance < 0 then
        (.error .insufficientFunds, s')
      else
        let now := s'.time
        let account' : Account := { account with balance := new_balance, last_updated := now }
        (.ok { account_number := account_number, new_balance := new_balance
               transaction_amount := |amount_change|
               transaction_type := transaction_type, timestamp := now },
          { s' with
            accounts := updateAssoc account_number account' s'.accounts
            time := s'.time + 1 })

/-- Service method `AccountService.withdraw_money`: delegates to `_atomic_transaction` with a
negated amount.  (The `except` re-raise wrappers are identity on the
`HTTPException` outcomes modelled here.) -/
def withdraw_money (s : LedgerState) (account_number : ℕ) (amount : ℚ) :
    Except LedgerError TransactionResponse × LedgerState :=
  atomic_transaction s account_number (-amount) "withdrawal"

/-- Service method `AccountService.deposit_money`: delegates to `_atomic_transaction`. -/
def deposit_money (s : LedgerState) (account_number : ℕ) (amount : ℚ) :
    Except LedgerError TransactionResponse × LedgerState :=
  atomic_transaction s account_number amount "deposit"

/-- Service method `AccountService.list_all_accounts`: a read-only snapshot
(total count, configured maximum, and per-account data). -/
def list_all_accounts (st : Settings) (s : LedgerState) :
    (ℕ × ℕ × List (ℕ × ℚ × ℕ × ℕ)) × LedgerState :=
  ((s.accounts.length, st.MAX_ACCOUNTS,
    s.accounts.map fun p => (p.1, p.2.balance, p.2.created_at, p.2.last_updated)), s)

/-- Schema `TransactionRequest` (`app/schemas/transaction.py`):
`amount: float = Field(gt=0, le=settings.MAX_TRANSACTION_AMOUNT)`. -/
def TransactionRequest.valid (st : Settings) (amount : ℚ) : Bool :=
  decide (0 < amount) && decide (amount ≤ st.MAX_TRANSACTION_AMOUNT)

/-- Schema `AccountCreate` (`app/schemas/account.py`):
`initial_balance: float = Field(default=0.0, ge=0, le=settings.MAX_TRANSACTION_AMOUNT)`. -/
def AccountCreate.valid (st : Settings) (initial_balance : ℚ) : Bool :=
  decide (0 ≤ initial_balance) && decide (initial_balance ≤ st.MAX_TRANSACTION_AMOUNT)

/-- One external command to the service. -/
inductive Op where
  | create (initial_balance : ℚ)
  | getBalance (account_number : ℕ)
  | deposit (account_number : ℕ) (amount : ℚ)
  | withdraw (account_number : ℕ) (amount : ℚ)
  | delete (account_number : ℕ)
  | listAll
deriving Repr, DecidableEq

/-- State transformer of one operation (discarding the response). -/
def step (st : Settings) (s : LedgerState) : Op → LedgerState
  | .create b => (create_account st s b).2
  | .getBalance id => (get_balance s id).2
  | .deposit id a => (deposit_money s id a).2
  | .withdraw id a => (withdraw_money s id a).2
  | .delete id => (delete_account s id).2
  | .listAll => (list_all_accounts st s).2

/-- Sequential execution of a list of operations. -/
def run (st : Settings) (s : LedgerState) : List Op → LedgerState
  | [] => s
  | op :: ops => run st (step st s op) ops

/-- All stored balances are non-negative. -/
def NonNegInv (s : LedgerState) : Prop := ∀ p ∈ s.accounts, 0 ≤ p.2.balance

/-- Every stored account key has an entry in the lock table. -/
def LocksCover (s : LedgerState) : Prop := ∀ p ∈ s.accounts, p.1 ∈ s.account_locks

/-- Every stored account key is below the UUID fresh counter. -/
def KeysFresh (s : LedgerState) : Prop := ∀ p ∈ s.accounts, p.1 < s.next_id

/-- One transaction request against a fixed account: a deposit or a
withdrawal of the given amount. -/
inductive Tx where
  | dep (amount : ℚ)
  | wd (amount : ℚ)
deriving Repr, DecidableEq

/-- Dispatch one transaction to `deposit_money` / `withdraw_money`. -/
def applyTx (s : LedgerState) (id : ℕ) : Tx →
    Except LedgerError TransactionResponse × LedgerState
  | .dep a => deposit_money s id a
  | .wd a => withdraw_money s id a

/-- Run a list of transactions against one account, keeping the state. -/
def runTxs (s : LedgerState) (id : ℕ) : List Tx → LedgerState
  | [] => s
  | t :: ts => runTxs (applyTx s id t).2 id ts

/-- Every transaction in the list succeeds when run in sequence. -/
def allSucceed (s : LedgerState) (id : ℕ) : List Tx → Prop
  | [] => True
  | t :: ts => (applyTx s id t).1.isOk = true ∧ allSucceed (applyTx s id t).2 id ts

/-- Signed balance change of one transaction. -/
def txDelta : Tx → ℚ
  | .dep a => a
  | .wd a => -a

/-- Sum of the deposit amounts of a transaction list. -/
def sumDeposits : List Tx → ℚ
  | [] => 0
  | .dep a :: ts => a + sumDeposits ts
  | .wd _ :: ts => sumDeposits ts

/-- Sum of the withdrawal amounts of a transaction list. -/
def sumWithdrawals : List Tx → ℚ
  | [] => 0
  | .dep _ :: ts => sumWithdrawals ts
  | .wd a :: ts => a + sumWithdrawals ts

/-- A state the service can reach from `__init__` by some sequence of calls. -/
def Reachable (st : Settings) (s : LedgerState) : Prop :=
  ∃ ops : List Op, s = run st initialState ops

/-- Spec §8 concrete scenario, state after `create(500.0)`. -/
def scenarioS1 : LedgerState := (create_account defaultSettings initialState 500).2

/-- Scenario state after `deposit(250.0)`. -/
def scenarioS2 : LedgerState := (deposit_money scenarioS1 0 250).2

/-- Scenario state after `withdraw(100.0)`. -/
def scenarioS3 : LedgerState := (withdraw_money scenarioS2 0 100).2

/-- Scenario state after the failing `withdraw(1000.0)`. -/
def scenarioS4 : LedgerState := (withdraw_money scenarioS3 0 1000).2

/-- Structural invariant of reachable service states: account keys are
duplicate-free, below the fresh counter, covered by the lock table, and all
balances are non-negative. -/
def LedgerInv (s : LedgerState) : Prop :=
  (s.accounts.map Prod.fst).Nodup ∧ KeysFresh s ∧ LocksCover s ∧ NonNegInv s

/-! ## Association-list lemmas -/

theorem lookupA_mem {k : ℕ} {v : Account} {l : List (ℕ × Account)}
    (h : lookupA k l = some v) : (k, v) ∈ l := by
  induction l with
  | nil => simp [lookupA] at h
  | cons p rest ih =>
    obtain ⟨k', v'⟩ := p
    by_cases hk : k' = k
    · subst hk
      simp [lookupA] at h
      subst h
      exact List.mem_cons_self _ _
    · simp [lookupA, hk] at h
      exact List.mem_cons_of_mem _ (ih h)

theorem mem_updateAssoc {p : ℕ × Account} {k : ℕ} {v : Account} {l : List (ℕ × Account)}
    (h : p ∈ updateAssoc k v l) : p = (k, v) ∨ p ∈ l := by
  induction l with
  | nil =>
    simp [updateAssoc] at h
    exact Or.inl h
  | cons q rest ih =>
    obtain ⟨k', v'⟩ := q
    by_cases hk : k' = k
    · subst hk
      simp [updateAssoc] at h
      rcases h with h | h
      · exact Or.inl (by simp [h])
      · exact Or.inr (List.mem_cons_of_mem _ h)
    · simp [updateAssoc, hk] at h
      rcases h with h | h
      · exact Or.inr (by simp [h])
      · rcases ih h with h' | h'
        · exact Or.inl h'
        · exact Or.inr (List.mem_cons_of_mem _ h')

theorem lookupA_updateAssoc_self (k : ℕ) (v : Account) (l : List (ℕ × Account)) :
    lookupA k (updateAssoc k v l) = some v := by
  induction l with
  | nil => simp [updateAssoc, lookupA]
  | cons q rest ih =>
    obtain ⟨k', v'⟩ := q
    by_cases hk : k' = k
    · subst hk
      simp [updateAssoc, lookupA]
    · simp [updateAssoc, lookupA, hk, ih]

theorem lookupA_updateAssoc_ne {k k' : ℕ} (h : k' ≠ k) (v : Account)
    (l : List (ℕ × Account)) : lookupA k' (updateAssoc k v l) = lookupA k' l := by
  have h' : ¬ (k = k') := fun hh => h hh.symm
  induction l with
  | nil => simp [updateAssoc, lookupA, h']
  | cons q rest ih =>
    obtain ⟨k'', v''⟩ := q
    by_cases hk : k'' = k
    · subst hk
      simp [updateAssoc, lookupA, h']
    · by_cases hk' : k'' = k'
      · simp [updateAssoc, lookupA, hk, hk', h]
      · simp [updateAssoc, lookupA, hk, hk', h, ih]

theorem mem_eraseAssoc {p : ℕ × Account} {k : ℕ} {l : List (ℕ × Account)}
    (h : p ∈ eraseAssoc k l) : p ∈ l := by
  induction l with
  | nil => simp [eraseAssoc] at h
  | cons q rest ih =>
    obtain ⟨k', v'⟩ := q
    by_cases hk : k' = k
    · subst hk
      simp only [eraseAssoc, if_pos rfl] at h
      exact List.mem_cons_of_mem _ h
    · simp only [eraseAssoc, hk, if_false] at h
      rcases List.mem_cons.mp h with h' | h'
      · exact List.mem_cons.mpr (Or.inl h')
      · exact List.mem_cons_of_mem _ (ih h')

theorem lookupA_eq_none {k : ℕ} {l : List (ℕ × Account)}
    (h : k ∉ l.map Prod.fst) : lookupA k l = none := by
  induction l with
  | nil => rfl
  | cons q rest ih =>
    obtain ⟨k', v'⟩ := q
    have h1 : ¬ (k' = k) := by
      intro hh
      exact h (by simp [hh])
    have h2 : k ∉ rest.map Prod.fst := by
      intro hh
      exact h (by simp [hh])
    simp [lookupA, h1, ih h2]

theorem lookupA_isSome_of_mem {k : ℕ} {l : List (ℕ × Account)}
    (h : k ∈ l.map Prod.fst) : (lookupA k l).isSome := by
  induction l with
  | nil => simp at h
  | cons q rest ih =>
    obtain ⟨k', v'⟩ := q
    by_cases hk : k' = k
    · simp [lookupA, hk]
    · rw [List.map_cons] at h
      rcases List.mem_cons.mp h with h' | h'
      · exact absurd h'.symm hk
      · simp [lookupA, hk, ih h']

theorem mem_keys_of_lookupA {k : ℕ} {v : Account} {l : List (ℕ × Account)}
    (h : lookupA k l = some v) : k ∈ l.map Prod.fst :=
  List.mem_map.mpr ⟨(k, v), lookupA_mem h, rfl⟩

theorem not_mem_keys_eraseAssoc {k : ℕ} {l : List (ℕ × Account)}
    (h : (l.map Prod.fst).Nodup) : k ∉ (eraseAssoc k l).map Prod.fst := by
  induction l with
  | nil => simp [eraseAssoc]
  | cons q rest ih =>
    obtain ⟨k', v'⟩ := q
    rw [List.map_cons, List.nodup_cons] at h
    by_cases hk : k' = k
    · subst hk
      simp only [eraseAssoc, if_pos rfl]
      exact h.1
    · simp only [eraseAssoc, hk, if_false, List.map_cons]
      intro hmem
      rcases List.mem_cons.mp hmem with h' | h'
      · exact hk h'.symm
      · exact ih h.2 h'

theorem length_eraseAssoc {k : ℕ} {l : List (ℕ × Account)}
    (h : (lookupA k l).isSome) : (eraseAssoc k l).length + 1 = l.length := by
  induction l with
  | nil => simp [lookupA] at h
  | cons q rest ih =>
    obtain ⟨k', v'⟩ := q
    by_cases hk : k' = k
    · subst hk
      simp [eraseAssoc]
    · simp only [lookupA, hk, if_false] at h
      simp [eraseAssoc, hk, ← ih h]

theorem mem_keys_updateAssoc {q k : ℕ} {v : Account} {l : List (ℕ × Account)}
    (h : q ∈ (updateAssoc k v l).map Prod.fst) : q = k ∨ q ∈ l.map Prod.fst := by
  rw [List.mem_map] at h
  obtain ⟨p, hp, hp'⟩ := h
  rcases mem_updateAssoc hp with h' | h'
  · left
    rw [← hp', h']
  · right
    exact List.mem_map.mpr ⟨p, h', hp'⟩

/-! ## Characterization of the service operations -/

theorem atomic_transaction_notFound {s : LedgerState} {account_number : ℕ}
    (c : ℚ) (t : String) (h : lookupA account_number s.accounts = none) :
    atomic_transaction s account_number c t =
      (.error .notFound,
       { s with account_locks := ensureLock account_number s.account_locks }) := by
  simp [atomic_transaction, h]

theorem atomic_transaction_insufficient {s : LedgerState} {account_number : ℕ}
    {c : ℚ} (t : String) {account : Account}
    (h : lookupA account_number s.accounts = some account)
    (hc : c < 0) (hn : account.balance + c < 0) :
    atomic_transaction s account_number c t =
      (.error .insufficientFunds,
       { s with account_locks := ensureLock account_number s.account_locks }) := by
  simp [atomic_transaction, h, hc, hn]

theorem atomic_transaction_success {s : LedgerState} {account_number : ℕ}
    {c : ℚ} (t : String) {account : Account}
    (h : lookupA account_number s.accounts = some account)
    (hok : ¬(c < 0 ∧ account.balance + c < 0)) :
    atomic_transaction s account_number c t =
      (.ok { account_number := account_number, new_balance := account.balance + c
             transaction_amount := |c|, transaction_type := t, timestamp := s.time },
       { s with
         accounts := updateAssoc account_number
           { account with balance := account.balance + c, last_updated := s.time }
           s.accounts
         account_locks := ensureLock account_number s.account_locks
         time := s.time + 1 }) := by
  simp [atomic_transaction, h, hok]


theorem get_balance_notFound {s : LedgerState} {account_number : ℕ}
    (h : lookupA account_number s.accounts = none) :
    get_balance s account_number =
      (.error .notFound,
       { s with account_locks := ensureLock account_number s.account_locks }) := by
  simp [get_balance, h]

theorem get_balance_found {s : LedgerState} {account_number : ℕ} {account : Account}
    (h : lookupA account_number s.accounts = some account) :
    get_balance s account_number =
      (.ok { account_number := account.account_number, balance := account.balance },
       { s with account_locks := ensureLock account_number s.account_locks }) := by
  simp [get_balance, h]

theorem delete_account_notFound {s : LedgerState} {account_number : ℕ}
    (h : lookupA account_number s.accounts = none) :
    delete_account s account_number = (.error .notFound, s) := by
  simp [delete_account, h]

theorem delete_account_found {s : LedgerState} {account_number : ℕ}
    (h : (lookupA account_number s.accounts).isSome) :
    delete_account s account_number =
      (.ok (),
       { s with
         accounts := eraseAssoc account_number s.accounts
         account_locks := (ensureLock account_number s.account_locks).erase account_number }) := by
  simp [delete_account, h]

theorem get_balance_accounts (s : LedgerState) (account_number : ℕ) :
    (get_balance s account_number).2.accounts = s.accounts := by
  cases h : lookupA account_number s.accounts with
  | none => rw [get_balance_notFound h]
  | some a => rw [get_balance_found h]

/-! ## Preservation lemmas shared across claims -/

theorem atomic_transaction_nonneg {s : LedgerState} {id : ℕ} {c : ℚ} {t : String}
    (h : NonNegInv s) : NonNegInv (atomic_transaction s id c t).2 := by
  cases hl : lookupA id s.accounts with
  | none =>
    rw [atomic_transaction_notFound c t hl]
    intro p hp
    exact h p hp
  | some account =>
    by_cases hcase : c < 0 ∧ account.balance + c < 0
    · rw [atomic_transaction_insufficient t hl hcase.1 hcase.2]
      intro p hp
      exact h p hp
    · rw [atomic_transaction_success t hl hcase]
      intro p hp
      rcases mem_updateAssoc hp with rfl | hp'
      · show 0 ≤ account.balance + c
        have hold : 0 ≤ account.balance := h _ (lookupA_mem hl)
        rcases not_and_or.mp hcase with hc | hn
        · have := not_lt.mp hc
          linarith
        · exact not_lt.mp hn
      · exact h p hp'

/-- Every operation, whether it succeeds or fails and at arbitrary arguments,
preserves non-negativity of all stored balances. -/
theorem step_nonneg (st : Settings) (s : LedgerState) (op : Op)
    (h : NonNegInv s) : NonNegInv (step st s op) := by
  cases op with
  | create b =>
    simp only [step, create_account]
    by_cases hcap : st.MAX_ACCOUNTS ≤ s.accounts.length
    · simpa [hcap] using h
    · by_cases hneg : b < 0
      · simp only [hcap, if_false, hneg, if_true]
        intro p hp
        exact h p hp
      · simp only [hcap, if_false, hneg, if_true]
        intro p hp
        rcases mem_updateAssoc hp with rfl | hp'
        · exact not_lt.mp hneg
        · exact h p hp'
  | getBalance id =>
    intro p hp
    rw [step, get_balance_accounts] at hp
    exact h p hp
  | deposit id a => exact atomic_transaction_nonneg h
  | withdraw id a => exact atomic_transaction_nonneg h
  | delete id =>
    simp only [step, delete_account]
    by_cases hl : (lookupA id s.accounts).isSome
    · simp only [hl, if_true]
      intro p hp
      exact h p (mem_eraseAssoc hp)
    · simp only [hl, if_false]
      exact h
  | listAll => exact h

theorem run_preserves (st : Settings) (I : LedgerState → Prop)
    (hstep : ∀ s op, I s → I (step st s op)) :
    ∀ (ops : List Op) (s : LedgerState), I s → I (run st s ops)
  | [], _, h => h
  | op :: ops, s, h => run_preserves st I hstep ops _ (hstep s op h)

theorem eraseAssoc_sublist (k : ℕ) :
    ∀ l : List (ℕ × Account), List.Sublist (eraseAssoc k l) l
  | [] => List.Sublist.refl _
  | (k', v') :: rest => by
    by_cases hk : k' = k
    · simp only [eraseAssoc, hk, if_pos rfl]
      exact List.sublist_cons_self _ _
    · simp only [eraseAssoc, hk, if_false]
      exact List.Sublist.cons₂ _ (eraseAssoc_sublist k rest)

theorem keys_updateAssoc_nodup {k : ℕ} {v : Account} {l : List (ℕ × Account)}
    (h : (l.map Prod.fst).Nodup) : ((updateAssoc k v l).map Prod.fst).Nodup := by
  induction l with
  | nil => simp [updateAssoc]
  | cons q rest ih =>
    obtain ⟨k', v'⟩ := q
    rw [List.map_cons, List.nodup_cons] at h
    by_cases hk : k' = k
    · have hupd : updateAssoc k v ((k', v') :: rest) = (k, v) :: rest := by
        simp [updateAssoc, hk]
      rw [hupd, List.map_cons, List.nodup_cons]
      subst hk
      exact ⟨h.1, h.2⟩
    · simp only [updateAssoc, hk, if_false, List.map_cons, List.nodup_cons]
      refine ⟨?_, ih h.2⟩
      intro hmem
      rcases mem_keys_updateAssoc hmem with h' | h'
      · exact hk h'
      · exact h.1 h'

theorem mem_ensureLock_self (k : ℕ) (locks : List ℕ) : k ∈ ensureLock k locks := by
  by_cases h : k ∈ locks <;> simp [ensureLock, h]

theorem mem_ensureLock_of_mem {k' : ℕ} (k : ℕ) {locks : List ℕ}
    (h : k' ∈ locks) : k' ∈ ensureLock k locks := by
  by_cases hk : k ∈ locks <;> simp [ensureLock, hk, h]

theorem atomic_transaction_nodup {s : LedgerState} {id : ℕ} (c : ℚ) (t : String)
    (h : (s.accounts.map Prod.fst).Nodup) :
    (((atomic_transaction s id c t).2.accounts).map Prod.fst).Nodup := by
  cases hl : lookupA id s.accounts with
  | none =>
    rw [atomic_transaction_notFound c t hl]
    exact h
  | some account =>
    by_cases hcase : c < 0 ∧ account.balance + c < 0
    · rw [atomic_transaction_insufficient t hl hcase.1 hcase.2]
      exact h
    · rw [atomic_transaction_success t hl hcase]
      exact keys_updateAssoc_nodup h

theorem atomic_transaction_keysFresh {s : LedgerState} {id : ℕ} (c : ℚ) (t : String)
    (h : KeysFresh s) : KeysFresh (atomic_transaction s id c t).2 := by
  cases hl : lookupA id s.accounts with
  | none =>
    rw [atomic_transaction_notFound c t hl]
    exact h
  | some account =>
    by_cases hcase : c < 0 ∧ account.balance + c < 0
    · rw [atomic_transaction_insufficient t hl hcase.1 hcase.2]
      exact h
    · rw [atomic_transaction_success t hl hcase]
      intro p hp
      rcases mem_updateAssoc hp with rfl | hp'
      · exact h (id, account) (lookupA_mem hl)
      · exact h p hp'

theorem atomic_transaction_locksCover {s : LedgerState} {id : ℕ} (c : ℚ) (t : String)
    (h : LocksCover s) : LocksCover (atomic_transaction s id c t).2 := by
  cases hl : lookupA id s.accounts with
  | none =>
    rw [atomic_transaction_notFound c t hl]
    intro p hp
    exact mem_ensureLock_of_mem id (h p hp)
  | some account =>
    by_cases hcase : c < 0 ∧ account.balance + c < 0
    · rw [atomic_transaction_insufficient t hl hcase.1 hcase.2]
      intro p hp
      exact mem_ensureLock_of_mem id (h p hp)
    · rw [atomic_transaction_success t hl hcase]
      intro p hp
      rcases mem_updateAssoc hp with rfl | hp'
      · exact mem_ensureLock_self id s.account_locks
      · exact mem_ensureLock_of_mem id (h p hp')

theorem step_ledgerInv (st : Settings) (s : LedgerState) (op : Op)
    (h : LedgerInv s) : LedgerInv (step st s op) := by
  obtain ⟨hnd, hfresh, hcover, hnn⟩ := h
  refine ⟨?_, ?_, ?_, step_nonneg st s op hnn⟩
  all_goals cases op
  case create b =>
    simp only [step, create_account]
    by_cases hcap : st.MAX_ACCOUNTS ≤ s.accounts.length
    · simpa [hcap] using hnd
    · by_cases hneg : b < 0
      · simpa [hcap, hneg] using hnd
      · simpa [hcap, hneg] using keys_updateAssoc_nodup hnd
  case getBalance id =>
    rw [step, get_balance_accounts]
    exact hnd
  case deposit id a => exact atomic_transaction_nodup a "deposit" hnd
  case withdraw id a => exact atomic_transaction_nodup (-a) "withdrawal" hnd
  case delete id =>
    simp only [step, delete_account]
    by_cases hl : (lookupA id s.accounts).isSome
    · simp only [hl, if_true]
      exact List.Nodup.sublist (List.Sublist.map Prod.fst (eraseAssoc_sublist id s.accounts)) hnd
    · simp only [hl, if_false]
      exact hnd
  case listAll => exact hnd
  case create b =>
    simp only [step, create_account]
    by_cases hcap : st.MAX_ACCOUNTS ≤ s.accounts.length
    · simpa [hcap] using hfresh
    · by_cases hneg : b < 0
      · simp only [hcap, hneg, if_false, if_true]
        intro p hp
        exact Nat.lt_succ_of_lt (hfresh p hp)
      · simp only [hcap, hneg, if_false, if_true]
        intro p hp
        rcases mem_updateAssoc hp with rfl | hp'
        · exact Nat.lt_succ_self _
        · exact Nat.lt_succ_of_lt (hfresh p hp')
  case getBalance id =>
    cases hl : lookupA id s.accounts with
    | none =>
      rw [step, get_balance_notFound hl]
      exact hfresh
    | some account =>
      rw [step, get_balance_found hl]
      exact hfresh
  case deposit id a => exact atomic_transaction_keysFresh a "deposit" hfresh
  case withdraw id a => exact atomic_transaction_keysFresh (-a) "withdrawal" hfresh
  case delete id =>
    simp only [step, delete_account]
    by_cases hl : (lookupA id s.accounts).isSome
    · simp only [hl, if_true]
      intro p hp
      exact hfresh p (mem_eraseAssoc hp)
    · simp only [hl, if_false]
      exact hfresh
  case listAll => exact hfresh
  case create b =>
    simp only [step, create_account]
    by_cases hcap : st.MAX_ACCOUNTS ≤ s.accounts.length
    · simpa [hcap] using hcover
    · by_cases hneg : b < 0
      · simpa [hcap, hneg] using hcover
      · simp only [hcap, hneg, if_false, if_true]
        intro p hp
        rcases mem_updateAssoc hp with rfl | hp'
        · exact mem_ensureLock_self _ _
        · exact mem_ensureLock_of_mem _ (hcover p hp')
  case getBalance id =>
    cases hl : lookupA id s.accounts with
    | none =>
      rw [step, get_balance_notFound hl]
      intro p hp
      exact mem_ensureLock_of_mem id (hcover p hp)
    | some account =>
      rw [step, get_balance_found hl]
      intro p hp
      exact mem_ensureLock_of_mem id (hcover p hp)
  case deposit id a => exact atomic_transaction_locksCover a "deposit" hcover
  case withdraw id a => exact atomic_transaction_locksCover (-a) "withdrawal" hcover
  case delete id =>
    simp only [step, delete_account]
    by_cases hl : (lookupA id s.accounts).isSome
    · simp only [hl, if_true]
      intro p hp
      have hne : p.1 ≠ id := by
        intro hEq
        exact not_mem_keys_eraseAssoc hnd
          (hEq ▸ List.mem_map.mpr ⟨p, hp, rfl⟩)
      exact (List.mem_erase_of_ne hne).mpr
        (mem_ensureLock_of_mem id (hcover p (mem_eraseAssoc hp)))
    · simp only [hl, if_false]
      exact hcover
  case listAll => exact hcover

theorem initial_ledgerInv : LedgerInv initialState := by
  refine ⟨?_, ?_, ?_, ?_⟩ <;> simp [initialState, KeysFresh, LocksCover, NonNegInv]

theorem reachable_ledgerInv {st : Settings} {s : LedgerState}
    (h : Reachable st s) : LedgerInv s := by
  obtain ⟨ops, rfl⟩ := h
  exact run_preserves st LedgerInv (fun s op => step_ledgerInv st s op) ops initialState
    initial_ledgerInv

/-! ## Claims -/

/-- Claim C1: in every reachable ledger state every stored balance is
non-negative, and every Ledger operation (create, getBalance, deposit,
withdraw, delete, listAll), whether it succeeds or fails and at arbitrary
arguments, preserves non-negativity of every stored balance. -/
theorem C1_balance_nonneg (st : Settings) (s : LedgerState)
    (h : Reachable st s) :
    NonNegInv s ∧ ∀ op : Op, NonNegInv (step st s op) := by
  have hinv := reachable_ledgerInv h
  exact ⟨hinv.2.2.2, fun op => step_nonneg st s op hinv.2.2.2⟩

/-- Witness for C1: non-negativity in the concrete state reached by
`create(5)`, via the theorem applied at that reachable state. -/
theorem C1_balance_nonneg_witness :
    NonNegInv (run defaultSettings initialState [Op.create 5]) :=
  (C1_balance_nonneg defaultSettings (run defaultSettings initialState [Op.create 5])
    ⟨[Op.create 5], rfl⟩).1

/-- Claim C2: for an existing account with balance `b` and an amount
`0 < a ≤ MAX_TRANSACTION_AMOUNT`, withdraw fails with `InsufficientFunds`
exactly when `b - a < 0`; on that failure the account table (hence the
account's balance and timestamps) is unchanged; otherwise it returns and
stores the new balance `b - a`, setting the account's last-updated timestamp
to the current clock, which advances it past its previous value. -/
theorem C2_withdraw_spec (st : Settings) (s : LedgerState) (id : ℕ) (a : ℚ)
    (account : Account)
    (hacct : lookupA id s.accounts = some account)
    (ha : 0 < a) (hmax : a ≤ st.MAX_TRANSACTION_AMOUNT)
    (hclock : account.last_updated < s.time) :
    ((withdraw_money s id a).1 = .error .insufficientFunds ↔ account.balance - a < 0) ∧
    (account.balance - a < 0 → (withdraw_money s id a).2.accounts = s.accounts) ∧
    (0 ≤ account.balance - a →
      (withdraw_money s id a).1 =
        .ok { account_number := id, new_balance := account.balance - a
              transaction_amount := a, transaction_type := "withdrawal"
              timestamp := s.time } ∧
      lookupA id (withdraw_money s id a).2.accounts =
        some { account with balance := account.balance - a, last_updated := s.time } ∧
      account.last_updated <
        (Account.mk account.account_number (account.balance - a)
          account.created_at s.time).last_updated) := by
  by_cases hlt : account.balance - a < 0
  · have hc : (-a) < 0 := by linarith
    have hn : account.balance + (-a) < 0 := by linarith
    have h1 : withdraw_money s id a =
        (.error .insufficientFunds,
         { s with account_locks := ensureLock id s.account_locks }) := by
      rw [withdraw_money]
      exact atomic_transaction_insufficient "withdrawal" hacct hc hn
    rw [h1]
    refine ⟨by simp [hlt], fun _ => rfl, fun hge => absurd hlt (by linarith)⟩
  · have hok : ¬((-a) < 0 ∧ account.balance + (-a) < 0) := by
      intro hcon
      exact hlt (by linarith [hcon.2])
    have h1 : withdraw_money s id a =
        (.ok { account_number := id, new_balance := account.balance + (-a)
               transaction_amount := |(-a)|, transaction_type := "withdrawal"
               timestamp := s.time },
         { s with
           accounts := updateAssoc id
             { account with balance := account.balance + (-a), last_updated := s.time }
             s.accounts
           account_locks := ensureLock id s.account_locks
           time := s.time + 1 }) := by
      rw [withdraw_money]
      exact atomic_transaction_success "withdrawal" hacct hok
    rw [h1]
    refine ⟨by simp [hlt], fun hlt' => absurd hlt' hlt, fun hge => ⟨?_, ?_, hclock⟩⟩
    · simp [sub_eq_add_neg, abs_neg, abs_of_pos ha]
    · rw [show ({ s with
           accounts := updateAssoc id
             { account with balance := account.balance + (-a), last_updated := s.time }
             s.accounts
           account_locks := ensureLock id s.account_locks
           time := s.time + 1 } : LedgerState).accounts = updateAssoc id
             { account with balance := account.balance + (-a), last_updated := s.time }
             s.accounts from rfl, lookupA_updateAssoc_self]
      simp [sub_eq_add_neg]

/-- Witness for C2: withdrawing 100 from the account created with 500
returns the new balance 400 with the advanced timestamp. -/
theorem C2_withdraw_spec_witness :
    (withdraw_money (create_account defaultSettings initialState 500).2 0 100).1 =
      .ok { account_number := 0, new_balance := 400, transaction_amount := 100
            transaction_type := "withdrawal", timestamp := 1 } := by
  have h := (C2_withdraw_spec defaultSettings
    (create_account defaultSettings initialState 500).2 0 100
    { account_number := 0, balance := 500, created_at := 0, last_updated := 0 }
    (by norm_num [create_account, defaultSettings, initialState, lookupA, updateAssoc])
    (by norm_num) (by norm_num [defaultSettings])
    (by norm_num [create_account, defaultSettings, initialState])).2.2 (by norm_num)
  rw [h.1]
  norm_num [create_account, defaultSettings, initialState]

/-- Counterexample to claim C3 as stated: on the ledger holding account 0 with
balance 500, the service-level deposit of the non-positive amount 0 does not
fail with a typed `InvalidAmount` error before touching account state — it
succeeds (and even advances the account's last-updated timestamp), because
the service performs no amount validation of its own. -/
theorem C3_counterexample :
    (deposit_money (create_account defaultSettings initialState 500).2 0 0).1 =
      .ok { account_number := 0, new_balance := 500, transaction_amount := 0
            transaction_type := "deposit", timestamp := 1 } := by
  norm_num [deposit_money, atomic_transaction, create_account, defaultSettings,
    initialState, lookupA, updateAssoc, ensureLock]

/-- Claim C3, amended: amount bounds are enforced only by the schema layer:
`TransactionRequest` rejects an amount exactly when it is non-positive or
exceeds the configured `MAX_TRANSACTION_AMOUNT`, so such requests never reach
the service; the service itself performs no amount validation. -/
theorem C3_amended_schema_validates_amount (st : Settings) (a : ℚ) :
    TransactionRequest.valid st a = false ↔
      (a ≤ 0 ∨ st.MAX_TRANSACTION_AMOUNT < a) := by
  simp [TransactionRequest.valid, not_lt, not_le, Decidable.imp_iff_not_or]

/-- Counterexample to claim C4 as stated: `create(-1)` on the fresh service does
fail and inserts no account, but the failure is the pydantic `Account` model's
validation error (surfaced by the router as an internal error), not the typed
`InvalidAmount` failure the claim requires of the Ledger. -/
theorem C4_counterexample :
    (create_account defaultSettings initialState (-1)).1 = .error .validationError ∧
    (Except.error .validationError :
        Except LedgerError AccountCreateResponse) ≠ .error .invalidAmount ∧
    (create_account defaultSettings initialState (-1)).2.accounts = [] := by
  refine ⟨?_, by simp, ?_⟩ <;>
    norm_num [create_account, defaultSettings, initialState]

/-- Claim C4, amended: for every `initial_balance < 0` (with capacity
available), create inserts no account and allocates no lock entry; it fails
via the pydantic `Account` model's validation error — an untyped failure the
router maps to an internal error, not the typed `InvalidAmount` — while the
typed rejection of a negative initial balance belongs to the schema layer
(`AccountCreate`, whose validator indeed rejects it). -/
theorem C4_amended_create_negative (st : Settings) (s : LedgerState) (b : ℚ)
    (hneg : b < 0) (hcap : s.accounts.length < st.MAX_ACCOUNTS) :
    (create_account st s b).1 = .error .validationError ∧
    (create_account st s b).2.accounts = s.accounts ∧
    (create_account st s b).2.account_locks = s.account_locks ∧
    AccountCreate.valid st b = false := by
  have hcap' : ¬ st.MAX_ACCOUNTS ≤ s.accounts.length := not_le.mpr hcap
  have hb : ¬ (0 : ℚ) ≤ b := not_le.mpr hneg
  refine ⟨?_, ?_, ?_, ?_⟩ <;>
    simp [create_account, hcap', hneg, AccountCreate.valid, hb]

/-- Witness for C4 (amended) at `initial_balance = -1` on the fresh service. -/
theorem C4_amended_create_negative_witness :
    (create_account defaultSettings initialState (-1)).2.accounts = [] :=
  (C4_amended_create_negative defaultSettings initialState (-1)
    (by norm_num) (by norm_num [initialState, defaultSettings])).2.1

/-- Counterexample to claim C5 as stated: `getBalance` on the absent id 7 fails
with `NotFound` but leaves a lock-table entry for id 7 behind (the
`defaultdict` inserts on access), so the lock-table key set is `[7]` while the
account table is empty — the two key sets differ. -/
theorem C5_counterexample :
    (get_balance initialState 7).1 = .error .notFound ∧
    (get_balance initialState 7).2.account_locks = [7] ∧
    (get_balance initialState 7).2.accounts = [] := by
  norm_num [get_balance, initialState, lookupA, ensureLock]

/-- Claim C5, amended: in every reachable state every account key has a lock
entry (the lock is created with the account and only removed together with it
by delete), but the converse fails: the lock table may contain extra entries
for ids with no account, created by getBalance/deposit/withdraw on an absent
id through the `defaultdict` access, and never cleaned up. -/
theorem C5_amended_locks_cover (st : Settings) (s : LedgerState)
    (h : Reachable st s) : LocksCover s :=
  (reachable_ledgerInv h).2.2.1

/-- Witness for C5 (amended) in the concrete state reached by `create(500)`. -/
theorem C5_amended_locks_cover_witness :
    LocksCover (run defaultSettings initialState [Op.create 500]) :=
  C5_amended_locks_cover defaultSettings _ ⟨[Op.create 500], rfl⟩

/-- Claim C9: a deposit, withdraw, or getBalance on account `A` leaves the
table entry of any other account `B` (its balance and both timestamps)
unchanged. -/
theorem C9_isolation_frame (s : LedgerState) (A B : ℕ) (a : ℚ) (hAB : B ≠ A) :
    lookupA B (deposit_money s A a).2.accounts = lookupA B s.accounts ∧
    lookupA B (withdraw_money s A a).2.accounts = lookupA B s.accounts ∧
    lookupA B (get_balance s A).2.accounts = lookupA B s.accounts := by
  have hframe : ∀ (c : ℚ) (t : String),
      lookupA B (atomic_transaction s A c t).2.accounts = lookupA B s.accounts := by
    intro c t
    cases hl : lookupA A s.accounts with
    | none => rw [atomic_transaction_notFound c t hl]
    | some account =>
      by_cases hcase : c < 0 ∧ account.balance + c < 0
      · rw [atomic_transaction_insufficient t hl hcase.1 hcase.2]
      · rw [atomic_transaction_success t hl hcase]
        exact lookupA_updateAssoc_ne hAB _ _
  exact ⟨hframe a "deposit", hframe (-a) "withdrawal", by rw [get_balance_accounts]⟩

/-- Witness for C9: depositing 50 into account 0 leaves account 1's entry
unchanged in the two-account state. -/
theorem C9_isolation_frame_witness :
    lookupA 1 (deposit_money
      (run defaultSettings initialState [Op.create 500, Op.create 300]) 0 50).2.accounts =
    lookupA 1 (run defaultSettings initialState [Op.create 500, Op.create 300]).accounts :=
  (C9_isolation_frame (run defaultSettings initialState [Op.create 500, Op.create 300])
    0 1 50 (by norm_num)).1

/-- Claim C6: create fails with `CapacityExceeded` exactly when the number of
live accounts has reached `MAX_ACCOUNTS` (and then changes nothing); below
capacity a create with a valid balance succeeds; and from a full ledger one
successful deletion makes the next create succeed. -/
theorem C6_capacity_enforcement (st : Settings) (s : LedgerState) (b : ℚ) :
    ((create_account st s b).1 = .error .capacityExceeded ↔
      st.MAX_ACCOUNTS ≤ s.accounts.length) ∧
    (st.MAX_ACCOUNTS ≤ s.accounts.length → (create_account st s b).2 = s) ∧
    (0 ≤ b → s.accounts.length < st.MAX_ACCOUNTS →
      (create_account st s b).1 = .ok { account_number := s.next_id, balance := b }) ∧
    (∀ id : ℕ, s.accounts.length = st.MAX_ACCOUNTS →
      (delete_account s id).1 = .ok () → ∀ b' : ℚ, 0 ≤ b' →
      (create_account st (delete_account s id).2 b').1 =
        .ok { account_number := s.next_id, balance := b' }) := by
  refine ⟨?_, ?_, ?_, ?_⟩
  · by_cases hcap : st.MAX_ACCOUNTS ≤ s.accounts.length
    · simp [create_account, hcap]
    · by_cases hneg : b < 0
      · simp [create_account, hcap, hneg]
      · simp [create_account, hcap, hneg]
  · intro hcap
    simp [create_account, hcap]
  · intro hb hcap
    have hcap' : ¬ st.MAX_ACCOUNTS ≤ s.accounts.length := not_le.mpr hcap
    have hneg : ¬ b < 0 := not_lt.mpr hb
    simp [create_account, hcap', hneg]
  · intro id hfull hdel b' hb'
    have hsome : (lookupA id s.accounts).isSome := by
      by_cases hl : (lookupA id s.accounts).isSome
      · exact hl
      · rw [delete_account] at hdel
        simp [hl] at hdel
    have hstate := delete_account_found hsome
    have hlen : ((delete_account s id).2).accounts.length + 1 = s.accounts.length := by
      rw [hstate]
      exact length_eraseAssoc hsome
    have hcap : ((delete_account s id).2).accounts.length < st.MAX_ACCOUNTS := by
      omega
    have hcap' : ¬ st.MAX_ACCOUNTS ≤ ((delete_account s id).2).accounts.length :=
      not_le.mpr hcap
    have hneg : ¬ b' < 0 := not_lt.mpr hb'
    have hnext : ((delete_account s id).2).next_id = s.next_id := by
      rw [hstate]
    simp [create_account, hcap', hneg, hnext]

/-- Witness for C6 with `MAX_ACCOUNTS = 1`: the second create fails with
`CapacityExceeded`, and after deleting the only account a create succeeds. -/
theorem C6_capacity_enforcement_witness :
    (create_account ⟨1, 10000⟩ (run ⟨1, 10000⟩ initialState [Op.create 500]) 5).1 =
      .error .capacityExceeded ∧
    (create_account ⟨1, 10000⟩
        (delete_account (run ⟨1, 10000⟩ initialState [Op.create 500]) 0).2 5).1 =
      .ok { account_number := 1, balance := 5 } := by
  constructor
  · exact (C6_capacity_enforcement ⟨1, 10000⟩ _ 5).1.mpr
      (by norm_num [run, step, create_account, initialState, updateAssoc, ensureLock])
  · have h := (C6_capacity_enforcement ⟨1, 10000⟩
      (run ⟨1, 10000⟩ initialState [Op.create 500]) 5).2.2.2 0
      (by norm_num [run, step, create_account, initialState, updateAssoc, ensureLock])
      (by norm_num [run, step, create_account, delete_account, initialState,
        lookupA, updateAssoc, ensureLock])
      5 (by norm_num)
    rw [h]
    norm_num [run, step, create_account, initialState, updateAssoc, ensureLock]

theorem atomic_transaction_dead {s : LedgerState} {id id' : ℕ} (c : ℚ) (t : String)
    (hnone : lookupA id s.accounts = none) :
    lookupA id (atomic_transaction s id' c t).2.accounts = none := by
  cases hl : lookupA id' s.accounts with
  | none =>
    rw [atomic_transaction_notFound c t hl]
    exact hnone
  | some account =>
    by_cases hcase : c < 0 ∧ account.balance + c < 0
    · rw [atomic_transaction_insufficient t hl hcase.1 hcase.2]
      exact hnone
    · rw [atomic_transaction_success t hl hcase]
      have hne : id ≠ id' := by
        intro hEq
        rw [hEq, hl] at hnone
        cases hnone
      rw [lookupA_updateAssoc_ne hne _ _]
      exact hnone

theorem atomic_transaction_next_id (s : LedgerState) (id : ℕ) (c : ℚ) (t : String) :
    (atomic_transaction s id c t).2.next_id = s.next_id := by
  cases hl : lookupA id s.accounts with
  | none => rw [atomic_transaction_notFound c t hl]
  | some account =>
    by_cases hcase : c < 0 ∧ account.balance + c < 0
    · rw [atomic_transaction_insufficient t hl hcase.1 hcase.2]
    · rw [atomic_transaction_success t hl hcase]

theorem step_preserves_dead (st : Settings) (id : ℕ) (s : LedgerState) (op : Op)
    (h : lookupA id s.accounts = none ∧ id < s.next_id) :
    lookupA id (step st s op).accounts = none ∧ id < (step st s op).next_id := by
  obtain ⟨hnone, hlt⟩ := h
  have hnotmem : id ∉ s.accounts.map Prod.fst := by
    intro hmem
    have hs := lookupA_isSome_of_mem hmem
    rw [hnone] at hs
    simp at hs
  cases op with
  | create b =>
    simp only [step, create_account]
    by_cases hcap : st.MAX_ACCOUNTS ≤ s.accounts.length
    · simp [hcap, hnone, hlt]
    · by_cases hneg : b < 0
      · simp only [hcap, hneg, if_false, if_true]
        exact ⟨hnone, Nat.lt_succ_of_lt hlt⟩
      · simp only [hcap, hneg, if_false, if_true]
        refine ⟨?_, Nat.lt_succ_of_lt hlt⟩
        rw [lookupA_updateAssoc_ne (Nat.ne_of_lt hlt) _ _]
        exact hnone
  | getBalance id' =>
    cases hl : lookupA id' s.accounts with
    | none =>
      rw [step, get_balance_notFound hl]
      exact ⟨hnone, hlt⟩
    | some account =>
      rw [step, get_balance_found hl]
      exact ⟨hnone, hlt⟩
  | deposit id' a =>
    refine ⟨atomic_transaction_dead a "deposit" hnone, ?_⟩
    rw [step, deposit_money, atomic_transaction_next_id]
    exact hlt
  | withdraw id' a =>
    refine ⟨atomic_transaction_dead (-a) "withdrawal" hnone, ?_⟩
    rw [step, withdraw_money, atomic_transaction_next_id]
    exact hlt
  | delete id' =>
    simp only [step, delete_account]
    by_cases hl : (lookupA id' s.accounts).isSome
    · simp only [hl, if_true]
      refine ⟨?_, hlt⟩
      apply lookupA_eq_none
      intro hmem
      exact hnotmem
        ((List.Sublist.map Prod.fst (eraseAssoc_sublist id' s.accounts)).subset hmem)
    · simp only [hl, if_false]
      exact ⟨hnone, hlt⟩
  | listAll => exact ⟨hnone, hlt⟩

/-- Claim C7: deletion finality — once `delete(id)` succeeds in a reachable
state, then after any further sequence of operations, `getBalance(id)`,
`deposit(id, a)`, `withdraw(id, a)` and `delete(id)` all fail with `NotFound`
(no operation resurrects the deleted id, because fresh ids are never reused). -/
theorem C7_deletion_finality (st : Settings) (s : LedgerState) (id : ℕ)
    (hreach : Reachable st s) (hdel : (delete_account s id).1 = .ok ()) :
    ∀ ops : List Op,
      (get_balance (run st (delete_account s id).2 ops) id).1 = .error .notFound ∧
      (∀ a : ℚ,
        (deposit_money (run st (delete_account s id).2 ops) id a).1 = .error .notFound) ∧
      (∀ a : ℚ,
        (withdraw_money (run st (delete_account s id).2 ops) id a).1 = .error .notFound) ∧
      (delete_account (run st (delete_account s id).2 ops) id).1 = .error .notFound := by
  intro ops
  have hinv := reachable_ledgerInv hreach
  have hsome : (lookupA id s.accounts).isSome := by
    by_cases hl : (lookupA id s.accounts).isSome
    · exact hl
    · rw [delete_account] at hdel
      simp [hl] at hdel
  have hid_lt : id < s.next_id := by
    obtain ⟨v, hv⟩ := Option.isSome_iff_exists.mp hsome
    exact hinv.2.1 (id, v) (lookupA_mem hv)
  have hdead0 : lookupA id (delete_account s id).2.accounts = none ∧
      id < (delete_account s id).2.next_id := by
    rw [delete_account_found hsome]
    exact ⟨lookupA_eq_none (not_mem_keys_eraseAssoc hinv.1), hid_lt⟩
  have hdead := run_preserves st
    (fun s' => lookupA id s'.accounts = none ∧ id < s'.next_id)
    (fun s' op h => step_preserves_dead st id s' op h) ops _ hdead0
  refine ⟨?_, ?_, ?_, ?_⟩
  · rw [get_balance_notFound hdead.1]
  · intro a
    rw [deposit_money, atomic_transaction_notFound a "deposit" hdead.1]
  · intro a
    rw [withdraw_money, atomic_transaction_notFound (-a) "withdrawal" hdead.1]
  · rw [delete_account_notFound hdead.1]

/-- Witness for C7: create account 0, delete it, create another account;
getBalance on id 0 still fails with `NotFound`. -/
theorem C7_deletion_finality_witness :
    (get_balance (run defaultSettings
      (delete_account (run defaultSettings initialState [Op.create 500]) 0).2
      [Op.create 7]) 0).1 = .error .notFound :=
  (C7_deletion_finality defaultSettings
    (run defaultSettings initialState [Op.create 500]) 0
    ⟨[Op.create 500], rfl⟩
    (by norm_num [run, step, create_account, delete_account, initialState,
      lookupA, updateAssoc, ensureLock])
    [Op.create 7]).1

theorem applyTx_ok_lookup {s : LedgerState} {id : ℕ} {account : Account} (t : Tx)
    (hacct : lookupA id s.accounts = some account)
    (hok : (applyTx s id t).1.isOk = true) :
    lookupA id (applyTx s id t).2.accounts =
      some { account with balance := account.balance + txDelta t,
                          last_updated := s.time } := by
  cases t with
  | dep a =>
    have hd : applyTx s id (Tx.dep a) = deposit_money s id a := rfl
    by_cases hcase : a < 0 ∧ account.balance + a < 0
    · rw [hd, deposit_money,
        atomic_transaction_insufficient "deposit" hacct hcase.1 hcase.2] at hok
      simp [Except.isOk, Except.toBool] at hok
    · rw [hd, deposit_money, atomic_transaction_success "deposit" hacct hcase]
      simp [txDelta, lookupA_updateAssoc_self]
  | wd a =>
    have hd : applyTx s id (Tx.wd a) = withdraw_money s id a := rfl
    by_cases hcase : (-a) < 0 ∧ account.balance + (-a) < 0
    · rw [hd, withdraw_money,
        atomic_transaction_insufficient "withdrawal" hacct hcase.1 hcase.2] at hok
      simp [Except.isOk, Except.toBool] at hok
    · rw [hd, withdraw_money, atomic_transaction_success "withdrawal" hacct hcase]
      simp [txDelta, lookupA_updateAssoc_self]

/-- Claim C8: conservation — starting from an account holding balance `b`,
any sequence of deposits and withdrawals on it that all succeed leaves the
stored balance at `b + sum(deposits) - sum(withdrawals)`, and `getBalance`
then returns exactly that value; and the spec's concrete scenario holds:
`create(500)` → `deposit(250) = 750` → `withdraw(100) = 650` →
`withdraw(1000)` fails with `InsufficientFunds`, balance still 650. -/
theorem C8_conservation :
    (∀ (ts : List Tx) (s : LedgerState) (id : ℕ) (account : Account),
      lookupA id s.accounts = some account → allSucceed s id ts →
      ∃ account' : Account,
        lookupA id (runTxs s id ts).accounts = some account' ∧
        account'.balance = account.balance + sumDeposits ts - sumWithdrawals ts ∧
        (get_balance (runTxs s id ts) id).1 =
          .ok { account_number := account'.account_number
                balance := account'.balance }) ∧
    ((deposit_money scenarioS1 0 250).1 =
        .ok { account_number := 0, new_balance := 750, transaction_amount := 250
              transaction_type := "deposit", timestamp := 1 } ∧
     (withdraw_money scenarioS2 0 100).1 =
        .ok { account_number := 0, new_balance := 650, transaction_amount := 100
              transaction_type := "withdrawal", timestamp := 2 } ∧
     (withdraw_money scenarioS3 0 1000).1 = .error .insufficientFunds ∧
     (get_balance scenarioS4 0).1 =
        .ok { account_number := 0, balance := 650 }) := by
  constructor
  · intro ts
    induction ts with
    | nil =>
      intro s id account hacct _
      exact ⟨account, hacct, by simp [runTxs, sumDeposits, sumWithdrawals],
        by rw [show runTxs s id [] = s from rfl, get_balance_found hacct]⟩
    | cons t rest ih =>
      intro s id account hacct hall
      obtain ⟨hok, hrest⟩ := hall
      have hstep := applyTx_ok_lookup t hacct hok
      obtain ⟨account', h1, h2, h3⟩ := ih (applyTx s id t).2 id _ hstep hrest
      refine ⟨account', h1, ?_, h3⟩
      rw [h2]
      cases t with
      | dep a =>
        simp only [txDelta, sumDeposits, sumWithdrawals]
        ring
      | wd a =>
        simp only [txDelta, sumDeposits, sumWithdrawals]
        ring
  · refine ⟨?_, ?_, ?_, ?_⟩ <;>
      norm_num [scenarioS1, scenarioS2, scenarioS3, scenarioS4, deposit_money,
        withdraw_money, atomic_transaction, get_balance, create_account,
        defaultSettings, initialState, lookupA, updateAssoc, ensureLock]

/-- Witness for C8: the deposit-250 / withdraw-100 sequence on the account
created with 500 conserves the balance at 650. -/
theorem C8_conservation_witness :
    ∃ account' : Account,
      lookupA 0 (runTxs scenarioS1 0 [Tx.dep 250, Tx.wd 100]).accounts =
        some account' ∧
      account'.balance = (Account.mk 0 500 0 0).balance +
        sumDeposits [Tx.dep 250, Tx.wd 100] - sumWithdrawals [Tx.dep 250, Tx.wd 100] ∧
      (get_balance (runTxs scenarioS1 0 [Tx.dep 250, Tx.wd 100]) 0).1 =
        .ok { account_number := account'.account_number
              balance := account'.balance } :=
  C8_conservation.1 [Tx.dep 250, Tx.wd 100] scenarioS1 0 (Account.mk 0 500 0 0)
    (by norm_num [scenarioS1, create_account, defaultSettings, initialState,
      lookupA, updateAssoc])
    (by norm_num [allSucceed, applyTx, deposit_money, withdraw_money,
      atomic_transaction, scenarioS1, create_account, defaultSettings,
      initialState, lookupA, updateAssoc, ensureLock, Except.isOk, Except.toBool])

/-- Witness for the amended C3: the schema validator rejects the amount 0. -/
theorem C3_amended_schema_validates_amount_witness :
    TransactionRequest.valid defaultSettings 0 = false :=
  (C3_amended_schema_validates_amount defaultSettings 0).mpr (Or.inl le_rfl)
